import Mathlib

/-!
# Verification of the window manager (`windowmanager.py`)

A shallow embedding of the `WindowManager` class of `windowmanager.py`.

Modelling decisions:

* A curses window is an opaque handle; only its identity matters (it is used
  for `list.index` lookup and stored in the redraw queue), so we model a
  window as a natural number (`Surface`).
* The terminal side effects (`window.noutrefresh()` and `curses.doupdate()`)
  are recorded as an event trace: each drawing method returns the list of
  terminal calls it performs, in order, together with the updated manager
  state.
* `self.windows.index(window)` is Python's `list.index`, which returns the
  first position of `window` in the list and raises `ValueError` when the
  window is absent; we model it as an `Option Nat` returning function and
  surface the `ValueError` as the `UnknownSurface` error.
* The queue `self._redraw_queue` is a `heapq` priority queue of pairs
  `(index-in-windows, window)`.  Python's `heapq` is external library code;
  we model it by its documented contract: `heappush` inserts an item keeping
  the heap ordered by its key, `heappop` removes and returns the smallest
  item.  We realise the priority queue as a list kept sorted by the first
  component (the registry index), inserting new items after existing items
  of equal key, under which `heappop` is exactly `uncons`.  For the states
  the program reaches this has the same observable pop sequence as the
  array-based heap: ties in the key only ever occur between identical pairs,
  because the key of an entry is determined by its window (two entries with
  equal keys hold the same window, so any tie-breaking yields the same
  sequence of popped values).  (For two *distinct* windows with an equal key
  Python's tuple comparison would raise `TypeError`; such states are
  unreachable, and our model simply keeps insertion order there.)
-/

namespace Silo

/-- An opaque curses window handle; identity is all the manager uses. -/
abbrev Surface := Nat

/-- A terminal call performed by the manager: a soft refresh of one window
(`window.noutrefresh()`) or the single physical update (`curses.doupdate()`). -/
inductive Event where
  | noutrefresh (w : Surface)
  | doupdate
deriving DecidableEq, Repr

/-- Python's `list.index(x)`: the first position of `x` in the list, `none`
standing for the `ValueError` raised when `x` is absent. -/
def listIndex (x : Surface) : List Surface → Option Nat
  | [] => none
  | y :: ys => if y = x then some 0 else (listIndex x ys).map (· + 1)

/-- `heapq.heappush(heap, item)` for a heap of `(registry index, window)`
pairs, modelled by its contract (see the module docstring): insert `item`
into the queue kept sorted by key, after existing entries of equal key. -/
def heappush (heap : List (Nat × Surface)) (item : Nat × Surface) :
    List (Nat × Surface) :=
  match heap with
  | [] => [item]
  | y :: ys => if item.1 < y.1 then item :: y :: ys else y :: heappush ys item

/-- `heapq.heappop(heap)`: remove and return the smallest item; `none` stands
for the `IndexError` raised on an empty heap.  On our sorted-by-key queue the
smallest item is the head. -/
def heappop (heap : List (Nat × Surface)) :
    Option ((Nat × Surface) × List (Nat × Surface)) :=
  match heap with
  | [] => none
  | x :: xs => some (x, xs)

/-- The state of a `WindowManager` object (its instance attributes). -/
structure WindowManager where
  stdscr : Surface
  container_window : Surface
  main_window : Surface
  status_window : Surface
  windows : List Surface
  is_recompose_main : Bool
  redraw_queue : List (Nat × Surface)
deriving DecidableEq, Repr

/-- `WindowManager.__init__`. -/
def WindowManager.init (stdscr container_window main_window status_window :
    Surface) : WindowManager :=
  { stdscr := stdscr
    container_window := container_window
    main_window := main_window
    status_window := status_window
    windows := [stdscr, container_window, main_window, status_window]
    is_recompose_main := false
    redraw_queue := [] }

/-- The spec's name for the single error: looking up a window that is not a
registry member (Python raises `ValueError` from `list.index`). -/
inductive RedrawError where
  | UnknownSurface
deriving DecidableEq, Repr

/-- `WindowManager.queue_redraw(window)`: push `(windows.index(window),
window)` onto the redraw queue.  `list.index` is evaluated first, so when it
raises the queue is untouched; the returned state is the object's state when
the exception propagates. -/
def WindowManager.queue_redraw (wm : WindowManager) (window : Surface) :
    Except RedrawError Unit × WindowManager :=
  match listIndex window wm.windows with
  | none => (Except.error RedrawError.UnknownSurface, wm)
  | some i =>
      (Except.ok (),
       { wm with redraw_queue := heappush wm.redraw_queue (i, window) })

/-- `WindowManager.redraw_all()`: `noutrefresh` every window of
`self.windows` in order, then one `curses.doupdate()`. -/
def WindowManager.redraw_all (wm : WindowManager) :
    List Event × WindowManager :=
  (wm.windows.map Event.noutrefresh ++ [Event.doupdate], wm)

/-- The `while self._redraw_queue:` loop of `redraw_queued`: repeatedly
`heappop` the queue and `noutrefresh` the popped window.  On our queue model
`heappop` is `uncons`, so the loop walks the list front to back. -/
def drainLoop : List (Nat × Surface) → List Event
  | [] => []
  | entry :: rest => Event.noutrefresh entry.2 :: drainLoop rest

/-- `WindowManager.redraw_queued()`: drain the queue (soft-refreshing each
popped window), set `self._redraw_queue = []`, then one `curses.doupdate()`. -/
def WindowManager.redraw_queued (wm : WindowManager) :
    List Event × WindowManager :=
  (drainLoop wm.redraw_queue ++ [Event.doupdate],
   { wm with redraw_queue := [] })

/-- The windows soft-refreshed in a trace, in order. -/
def refreshTargets (trace : List Event) : List Surface :=
  trace.filterMap fun e =>
    match e with
    | Event.noutrefresh w => some w
    | Event.doupdate => none

/-- One external call into the manager. -/
inductive Op where
  | queue (w : Surface)
  | flushQueued
  | redrawAll
deriving DecidableEq, Repr

/-- Apply one call; `none` when `queue_redraw` raises `UnknownSurface`. -/
def applyOp (wm : WindowManager) : Op → Option WindowManager
  | Op.queue w =>
      match wm.queue_redraw w with
      | (Except.ok _, wm2) => some wm2
      | (Except.error _, _) => none
  | Op.flushQueued => some (wm.redraw_queued).2
  | Op.redrawAll => some (wm.redraw_all).2

/-- Run a sequence of successful calls. -/
def runOps : WindowManager → List Op → Option WindowManager
  | wm, [] => some wm
  | wm, op :: ops =>
      match applyOp wm op with
      | none => none
      | some wm2 => runOps wm2 ops

/-- `queue_redraw` iterated `n` times with the same window. -/
def queueN (window : Surface) : Nat → WindowManager → WindowManager
  | 0, wm => wm
  | n + 1, wm => queueN window n (wm.queue_redraw window).2

/-- The state invariant maintained by every reachable state: each queue entry
is keyed by its window's registry index, and the queue is sorted by key. -/
def QueueInv (wm : WindowManager) : Prop :=
  (∀ e ∈ wm.redraw_queue, listIndex e.2 wm.windows = some e.1) ∧
  wm.redraw_queue.Pairwise (fun a b => a.1 ≤ b.1)

/-! ## Helper lemmas -/

theorem drainLoop_eq_map (q : List (Nat × Surface)) :
    drainLoop q = q.map (fun e => Event.noutrefresh e.2) := by
  induction q with
  | nil => rfl
  | cons e rest ih => simp [drainLoop, ih]

theorem refreshTargets_append (t1 t2 : List Event) :
    refreshTargets (t1 ++ t2) = refreshTargets t1 ++ refreshTargets t2 := by
  simp [refreshTargets]

theorem refreshTargets_map_noutrefresh (ws : List Surface) :
    refreshTargets (ws.map Event.noutrefresh) = ws := by
  induction ws with
  | nil => rfl
  | cons w rest ih => simp [refreshTargets] at ih ⊢; exact ih

theorem refreshTargets_doupdate : refreshTargets [Event.doupdate] = [] := rfl

/-- The soft refreshes of a `redraw_queued` call are exactly the queued
windows, in queue order. -/
theorem refreshTargets_redraw_queued (wm : WindowManager) :
    refreshTargets (wm.redraw_queued).1 = wm.redraw_queue.map Prod.snd := by
  simp [WindowManager.redraw_queued, refreshTargets_append, drainLoop_eq_map,
    refreshTargets_doupdate]
  rw [show (fun e : Nat × Surface => Event.noutrefresh e.2) =
      Event.noutrefresh ∘ Prod.snd from rfl, ← List.map_map,
    refreshTargets_map_noutrefresh]

theorem heappush_perm (q : List (Nat × Surface)) (x : Nat × Surface) :
    (heappush q x).Perm (x :: q) := by
  induction q with
  | nil => simp [heappush]
  | cons y ys ih =>
      by_cases h : x.1 < y.1
      · simp [heappush, h]
      · simp only [heappush, if_neg h]
        exact (ih.cons y).trans (List.Perm.swap x y ys)

theorem heappush_mem (q : List (Nat × Surface)) (x e : Nat × Surface) :
    e ∈ heappush q x ↔ e = x ∨ e ∈ q := by
  rw [(heappush_perm q x).mem_iff]; simp

theorem heappush_pairwise (q : List (Nat × Surface)) (x : Nat × Surface)
    (hq : q.Pairwise (fun a b => a.1 ≤ b.1)) :
    (heappush q x).Pairwise (fun a b => a.1 ≤ b.1) := by
  induction q with
  | nil => simp [heappush]
  | cons y ys ih =>
      rcases List.pairwise_cons.mp hq with ⟨hy, hys⟩
      by_cases h : x.1 < y.1
      · simp only [heappush, if_pos h]
        refine List.pairwise_cons.mpr ⟨?_, hq⟩
        intro b hb
        rcases List.mem_cons.mp hb with hb | hb
        · subst hb; exact Nat.le_of_lt h
        · exact Nat.le_of_lt (Nat.lt_of_lt_of_le h (hy b hb))
      · simp only [heappush, if_neg h]
        refine List.pairwise_cons.mpr ⟨?_, ih hys⟩
        intro b hb
        rcases (heappush_mem ys x b).mp hb with hb | hb
        · subst hb; exact Nat.le_of_not_lt h
        · exact hy b hb

theorem listIndex_get (x : Surface) (l : List Surface) (i : Nat)
    (h : listIndex x l = some i) : l.get? i = some x := by
  induction l generalizing i with
  | nil => simp [listIndex] at h
  | cons y ys ih =>
      by_cases hy : y = x
      · simp [listIndex, hy] at h
        subst h; simp [hy]
      · simp [listIndex, hy] at h
        rcases h with ⟨j, hj, hji⟩
        subst hji
        simpa using ih j hj

theorem listIndex_mem (x : Surface) (l : List Surface) (i : Nat)
    (h : listIndex x l = some i) : x ∈ l :=
  List.get?_mem (listIndex_get x l i h)

/-- `listIndex` is determined by the window: two windows with the same
(successful) index are the same window. -/
theorem listIndex_inj (x y : Surface) (l : List Surface) (i : Nat)
    (hx : listIndex x l = some i) (hy : listIndex y l = some i) : x = y := by
  have h1 := listIndex_get x l i hx
  have h2 := listIndex_get y l i hy
  rw [h1] at h2
  exact Option.some.inj h2

/-- Every successful call preserves the registry sequence. -/
theorem applyOp_windows (wm wm2 : WindowManager) (op : Op)
    (h : applyOp wm op = some wm2) : wm2.windows = wm.windows := by
  cases op with
  | queue w =>
      simp only [applyOp] at h
      cases hq : listIndex w wm.windows with
      | none => simp [WindowManager.queue_redraw, hq] at h
      | some i =>
          simp [WindowManager.queue_redraw, hq] at h
          subst h; rfl
  | flushQueued =>
      simp only [applyOp, Option.some.injEq] at h
      subst h; rfl
  | redrawAll =>
      simp only [applyOp, Option.some.injEq] at h
      subst h; rfl

/-- Every successful call preserves the queue invariant. -/
theorem applyOp_inv (wm wm2 : WindowManager) (op : Op)
    (hinv : QueueInv wm) (h : applyOp wm op = some wm2) : QueueInv wm2 := by
  cases op with
  | queue w =>
      simp only [applyOp] at h
      cases hq : listIndex w wm.windows with
      | none => simp [WindowManager.queue_redraw, hq] at h
      | some i =>
          simp [WindowManager.queue_redraw, hq] at h
          subst h
          constructor
          · intro e he
            rcases (heappush_mem _ _ _).mp he with he | he
            · subst he; exact hq
            · exact hinv.1 e he
          · exact heappush_pairwise _ _ hinv.2
  | flushQueued =>
      simp only [applyOp, Option.some.injEq] at h
      subst h
      exact ⟨fun e he => absurd he (by simp [WindowManager.redraw_queued]),
        by simp [WindowManager.redraw_queued]⟩
  | redrawAll =>
      simp only [applyOp, Option.some.injEq] at h
      subst h; exact hinv

/-- Executing any successful call sequence preserves both the invariant and
the registry sequence. -/
theorem runOps_inv (ops : List Op) (wm wm2 : WindowManager)
    (hinv : QueueInv wm) (h : runOps wm ops = some wm2) :
    QueueInv wm2 ∧ wm2.windows = wm.windows := by
  induction ops generalizing wm with
  | nil =>
      simp only [runOps, Option.some.injEq] at h
      subst h; exact ⟨hinv, rfl⟩
  | cons op ops ih =>
      simp only [runOps] at h
      cases hop : applyOp wm op with
      | none => rw [hop] at h; simp at h
      | some wmMid =>
          rw [hop] at h
          have step := ih wmMid (applyOp_inv wm wmMid op hinv hop) h
          exact ⟨step.1, step.2.trans (applyOp_windows wm wmMid op hop)⟩

/-- The initial state satisfies the invariant. -/
theorem init_inv (s c m st : Surface) : QueueInv (WindowManager.init s c m st) :=
  ⟨fun e he => absurd he (by simp [WindowManager.init]), by
    simp [WindowManager.init]⟩

/-- `listIndex` fails exactly on non-members. -/
theorem listIndex_eq_none (x : Surface) (l : List Surface) :
    listIndex x l = none ↔ x ∉ l := by
  induction l with
  | nil => simp [listIndex]
  | cons y ys ih =>
      by_cases hy : y = x
      · simp [listIndex, hy]
      · have hmap : (listIndex x ys).map (· + 1) = none ↔
            listIndex x ys = none := by
          cases listIndex x ys <;> simp
        simp only [listIndex, if_neg hy, hmap, ih, List.mem_cons]
        constructor
        · intro hn h
          rcases h with h | h
          · exact hy h.symm
          · exact hn h
        · intro hn h
          exact hn (Or.inr h)

/-- Pushing an entry for window `w` adds one occurrence of `w` to the queued
windows and leaves every other window's occurrence count unchanged. -/
theorem count_map_snd_heappush (q : List (Nat × Surface)) (i : Nat)
    (w v : Surface) :
    List.count v ((heappush q (i, w)).map Prod.snd) =
      List.count v (q.map Prod.snd) + (if w = v then 1 else 0) := by
  have hp := (heappush_perm q (i, w)).map Prod.snd
  rw [hp.count_eq]
  simp [List.count_cons]

/-! ## The claims

`scenarioWM` is the spec's test scenario: registry `[0, 1, 2, 3]` playing
the roles root (`stdscr` = 0), container = 1, viewport (`main_window` = 2),
status = 3; then `queue_redraw(viewport)`, `queue_redraw(status)`,
`queue_redraw(viewport)` again. -/

/-- The scenario state (see above). -/
def scenarioWM : WindowManager :=
  ((((WindowManager.init 0 1 2 3).queue_redraw 2).2.queue_redraw
    3).2.queue_redraw 2).2

/-- C1, counterexample: in the scenario, the subsequent `redraw_queued` call
soft-refreshes the viewport (window 2) twice, not once, and the refresh
sequence is `[viewport, viewport, status]`, not `[viewport, status]`. -/
theorem queueN_dedup_counterexample :
    refreshTargets (scenarioWM.redraw_queued).1 = [2, 2, 3] ∧
    List.count 2 (refreshTargets (scenarioWM.redraw_queued).1) = 2 ∧
    refreshTargets (scenarioWM.redraw_queued).1 ≠ [2, 3] := by
  decide

/-- C1 (amended): queuing a registry member `w` `n` times via `queue_redraw`
before a flush results in exactly `n` additional soft refreshes of `w` during
the subsequent `redraw_queued` call — one per request, duplicates are not
collapsed. -/
theorem queueN_count_refresh (wm : WindowManager) (w : Surface) (i n : Nat)
    (h : listIndex w wm.windows = some i) :
    List.count w (refreshTargets ((queueN w n wm).redraw_queued).1) =
      List.count w (wm.redraw_queue.map Prod.snd) + n := by
  induction n generalizing wm with
  | zero => simp [queueN, refreshTargets_redraw_queued]
  | succ n ih =>
      have hwin : (wm.queue_redraw w).2.windows = wm.windows := by
        cases hq : listIndex w wm.windows <;>
          simp [WindowManager.queue_redraw, hq]
      have hstep := ih (wm.queue_redraw w).2 (hwin ▸ h)
      rw [queueN, hstep]
      simp only [WindowManager.queue_redraw, h]
      rw [count_map_snd_heappush]
      simp [Nat.add_assoc, Nat.add_comm 1 n]

/-- C1, witness: in the scenario registry, queuing the viewport twice from
the fresh state yields exactly two soft refreshes of it on flush. -/
theorem queueN_count_refresh_witness :
    List.count 2
        (refreshTargets ((queueN 2 2 (WindowManager.init 0 1 2 3)).redraw_queued).1) =
      List.count 2 ((WindowManager.init 0 1 2 3).redraw_queue.map Prod.snd) + 2 :=
  queueN_count_refresh (WindowManager.init 0 1 2 3) 2 2 2 (by decide)

/-- C2, counterexample: in the scenario the registry indices of the
soft-refresh sequence are `[2, 2, 3]`, which is not strictly ascending (the
claim demands strictly ascending order, but a surface queued twice is
refreshed twice at the same index). -/
theorem redraw_order_strict_counterexample :
    (refreshTargets (scenarioWM.redraw_queued).1).map
        (fun w => listIndex w scenarioWM.windows) =
      [some 2, some 2, some 3] ∧
    ¬ List.Chain' (· < ·)
        ((refreshTargets (scenarioWM.redraw_queued).1).filterMap
          (fun w => listIndex w scenarioWM.windows)) := by
  constructor
  · decide
  · intro hch
    have hlist : (refreshTargets (scenarioWM.redraw_queued).1).filterMap
        (fun w => listIndex w scenarioWM.windows) = [2, 2, 3] := by decide
    rw [hlist, List.chain'_cons] at hch
    exact absurd hch.1 (by decide)

/-- C2 (amended): for every reachable state, `redraw_queued` soft-refreshes
exactly the queued entries, in non-decreasing registry-index order — never in
request-arrival order; entries with equal index hold the same window, so
distinct surfaces appear in strictly ascending index order. -/
theorem redraw_queued_order_sorted (s c m st : Surface) (ops : List Op)
    (wm : WindowManager)
    (h : runOps (WindowManager.init s c m st) ops = some wm) :
    refreshTargets (wm.redraw_queued).1 = wm.redraw_queue.map Prod.snd ∧
    wm.redraw_queue.Pairwise
      (fun a b => a.1 ≤ b.1 ∧ (a.1 = b.1 → a.2 = b.2)) ∧
    ∀ e ∈ wm.redraw_queue, listIndex e.2 wm.windows = some e.1 := by
  rcases runOps_inv ops _ wm (init_inv s c m st) h with ⟨⟨hkey, hsorted⟩, _⟩
  refine ⟨refreshTargets_redraw_queued wm, ?_, hkey⟩
  refine hsorted.imp_of_mem ?_
  intro a b ha hb hab
  refine ⟨hab, fun heq => ?_⟩
  exact listIndex_inj a.2 b.2 wm.windows a.1 (hkey a ha) (heq ▸ hkey b hb)

/-- C2, witness: the amended ordering statement at the scenario state. -/
theorem redraw_queued_order_sorted_witness :
    refreshTargets (scenarioWM.redraw_queued).1 =
      scenarioWM.redraw_queue.map Prod.snd ∧
    scenarioWM.redraw_queue.Pairwise
      (fun a b => a.1 ≤ b.1 ∧ (a.1 = b.1 → a.2 = b.2)) :=
  ⟨(redraw_queued_order_sorted 0 1 2 3 [Op.queue 2, Op.queue 3, Op.queue 2]
      scenarioWM (by decide)).1,
   (redraw_queued_order_sorted 0 1 2 3 [Op.queue 2, Op.queue 3, Op.queue 2]
      scenarioWM (by decide)).2.1⟩

/-- C3: in a single `redraw_queued` or `redraw_all` call the physical commit
(`curses.doupdate`) happens exactly once, after all soft refreshes of that
call — the trace is a block of `noutrefresh` events followed by one final
`doupdate`, with no interleaving. -/
theorem commit_once_after_refreshes (wm : WindowManager) :
    ((wm.redraw_queued).1 =
        (wm.redraw_queue.map Prod.snd).map Event.noutrefresh ++
          [Event.doupdate] ∧
      List.count Event.doupdate (wm.redraw_queued).1 = 1) ∧
    ((wm.redraw_all).1 =
        wm.windows.map Event.noutrefresh ++ [Event.doupdate] ∧
      List.count Event.doupdate (wm.redraw_all).1 = 1) := by
  have htrace : (wm.redraw_queued).1 =
      (wm.redraw_queue.map Prod.snd).map Event.noutrefresh ++
        [Event.doupdate] := by
    simp [WindowManager.redraw_queued, drainLoop_eq_map, List.map_map]
  have hcount : ∀ ws : List Surface,
      List.count Event.doupdate (ws.map Event.noutrefresh ++ [Event.doupdate]) =
        1 := by
    intro ws
    rw [List.count_append]
    have hz : List.count Event.doupdate (ws.map Event.noutrefresh) = 0 := by
      rw [List.count_eq_zero]
      simp
    rw [hz]
    rfl
  refine ⟨⟨htrace, ?_⟩, rfl, hcount wm.windows⟩
  rw [htrace]
  exact hcount (wm.redraw_queue.map Prod.snd)

/-- C4: after `redraw_queued` returns, the redraw queue is empty, and an
immediately following second `redraw_queued` call performs zero soft
refreshes (its trace is just the single `doupdate`). -/
theorem redraw_queued_drains (wm : WindowManager) :
    (wm.redraw_queued).2.redraw_queue = [] ∧
    refreshTargets ((wm.redraw_queued).2.redraw_queued).1 = [] ∧
    ((wm.redraw_queued).2.redraw_queued).1 = [Event.doupdate] := by
  refine ⟨rfl, ?_, rfl⟩
  simp [WindowManager.redraw_queued, refreshTargets, drainLoop]

/-- C5: `redraw_all` soft-refreshes all four registered surfaces, bottom to
top in registry order, exactly once each, regardless of the redraw queue's
contents. -/
theorem redraw_all_complete (wm : WindowManager) (s c m st : Surface)
    (hw : wm.windows = [s, c, m, st]) (hd : ([s, c, m, st] : List Surface).Nodup) :
    (wm.redraw_all).1 = [Event.noutrefresh s, Event.noutrefresh c,
      Event.noutrefresh m, Event.noutrefresh st, Event.doupdate] ∧
    ∀ w ∈ wm.windows, List.count w (refreshTargets (wm.redraw_all).1) = 1 := by
  constructor
  · simp [WindowManager.redraw_all, hw]
  · intro w hmem
    have htargets : refreshTargets (wm.redraw_all).1 = wm.windows := by
      simp [WindowManager.redraw_all, refreshTargets_append,
        refreshTargets_map_noutrefresh, refreshTargets_doupdate]
    rw [htargets, hw]
    rw [hw] at hmem
    exact Nat.le_antisymm (List.nodup_iff_count_le_one.mp hd w)
      (List.count_pos_iff.mpr hmem)

/-- C5, witness: at the scenario state (whose queue is nonempty),
`redraw_all` refreshes exactly the four registered surfaces in order. -/
theorem redraw_all_complete_witness :
    (scenarioWM.redraw_all).1 = [Event.noutrefresh 0, Event.noutrefresh 1,
      Event.noutrefresh 2, Event.noutrefresh 3, Event.doupdate] :=
  (redraw_all_complete scenarioWM 0 1 2 3 (by decide) (by decide)).1

/-- C6: `queue_redraw` with a surface that is not a registry member fails
with `UnknownSurface` and has no side effect — the state (in particular the
redraw queue) is unchanged by the failing call. -/
theorem queue_redraw_unknown_surface (wm : WindowManager) (w : Surface)
    (h : w ∉ wm.windows) :
    (wm.queue_redraw w).1 = Except.error RedrawError.UnknownSurface ∧
    (wm.queue_redraw w).2 = wm := by
  have hnone : listIndex w wm.windows = none := (listIndex_eq_none w _).mpr h
  simp [WindowManager.queue_redraw, hnone]

/-- C6, witness: queuing the foreign handle 7 against registry
`[0, 1, 2, 3]` fails with `UnknownSurface` and leaves the state intact. -/
theorem queue_redraw_unknown_surface_witness :
    ((WindowManager.init 0 1 2 3).queue_redraw 7).1 =
      Except.error RedrawError.UnknownSurface ∧
    ((WindowManager.init 0 1 2 3).queue_redraw 7).2 =
      WindowManager.init 0 1 2 3 :=
  queue_redraw_unknown_surface (WindowManager.init 0 1 2 3) 7 (by decide)

/-- C7: `redraw_all` leaves the whole state — in particular the redraw
queue — unchanged, and the requests pending before the call are exactly the
ones consumed by the next `redraw_queued` call. -/
theorem redraw_all_preserves_queue (wm : WindowManager) :
    (wm.redraw_all).2 = wm ∧
    (wm.redraw_all).2.redraw_queue = wm.redraw_queue ∧
    refreshTargets ((wm.redraw_all).2.redraw_queued).1 =
      wm.redraw_queue.map Prod.snd :=
  ⟨rfl, rfl, refreshTargets_redraw_queued wm⟩

/-- C8: the registry sequence `[stdscr, container_window, main_window,
status_window]` is fixed at construction, and no operation (`queue_redraw`,
`redraw_all`, `redraw_queued`) reorders it, adds to it, or removes from it. -/
theorem windows_fixed (s c m st : Surface) (wm : WindowManager) (w : Surface) :
    (WindowManager.init s c m st).windows = [s, c, m, st] ∧
    (wm.queue_redraw w).2.windows = wm.windows ∧
    (wm.redraw_all).2.windows = wm.windows ∧
    (wm.redraw_queued).2.windows = wm.windows := by
  refine ⟨rfl, ?_, rfl, rfl⟩
  cases hq : listIndex w wm.windows <;> simp [WindowManager.queue_redraw, hq]

/-- C9: in every reachable state (any sequence of successful calls from
construction), every surface in the redraw queue is a member of the
registry. -/
theorem queue_subset_registry (s c m st : Surface) (ops : List Op)
    (wm : WindowManager)
    (h : runOps (WindowManager.init s c m st) ops = some wm) :
    ∀ e ∈ wm.redraw_queue, e.2 ∈ wm.windows := by
  intro e he
  exact listIndex_mem e.2 wm.windows e.1
    ((runOps_inv ops _ wm (init_inv s c m st) h).1.1 e he)

/-- C9, witness: after queuing window 2 from a fresh manager, the queued
entry's window is a registry member. -/
theorem queue_subset_registry_witness :
    ((2, 2) : Nat × Surface).2 ∈
      ((WindowManager.init 0 1 2 3).queue_redraw 2).2.windows :=
  queue_subset_registry 0 1 2 3 [Op.queue 2]
    ((WindowManager.init 0 1 2 3).queue_redraw 2).2 (by decide)
    (2, 2) (by decide)

/-- C10: `redraw_queued` on an empty queue performs zero soft refreshes but
still performs the physical commit exactly once — the trace is exactly
`[doupdate]`. -/
theorem redraw_queued_empty_commit (wm : WindowManager)
    (h : wm.redraw_queue = []) :
    (wm.redraw_queued).1 = [Event.doupdate] ∧
    refreshTargets (wm.redraw_queued).1 = [] ∧
    List.count Event.doupdate (wm.redraw_queued).1 = 1 := by
  simp [WindowManager.redraw_queued, h, drainLoop, refreshTargets]

/-- C10, witness: a fresh manager's first flush commits once with no
refreshes. -/
theorem redraw_queued_empty_commit_witness :
    ((WindowManager.init 0 1 2 3).redraw_queued).1 = [Event.doupdate] ∧
    refreshTargets ((WindowManager.init 0 1 2 3).redraw_queued).1 = [] ∧
    List.count Event.doupdate ((WindowManager.init 0 1 2 3).redraw_queued).1 =
      1 :=
  redraw_queued_empty_commit (WindowManager.init 0 1 2 3) (by decide)

end Silo
